import Mathlib

/-!
# Verification of the DuckDuckGo search MCP server

Shallow embedding of the pagination-aware scraping loop of
`src/duckduckgo-server/src/index.ts` (two near-duplicate variants of
`searchDuckDuckGo`, called V1 and V2 below, separated in the source file by a
document separator) and of the simpler non-paginating variant in the unnamed
source file (called `searchDuckDuckGoSimple` below), together with the
`CallToolRequestSchema` handler's argument validation.

Modelling conventions:
* HTML parsing (cheerio) is abstracted at the level of what the source reads
  from the document: a `Row` records, for one `<tr>`, the text of its first
  `<td>` (`""` when there is none, as `.text()` of an empty selection is
  `""`), the `a.result-link` selection inside the whole row (V1) and inside
  the last `<td>` (V2), and the text of `td.result-snippet` in the next
  sibling `<tr>`.  A `Page` records the rows in document order and, in
  `nextForm`, the hidden inputs of the form located by the variant's
  next-page-form selector (`none` when no form matches; the V1 source's
  follow-up button check is subsumed because its selector
  `form:has(input.navbutton[value="Next Page >"])` already requires the
  button).
* The network is an oracle `Fetch : Nat → Except String Page` giving the
  response to the k-th HTTP POST of the call; `Except.error e` models a
  transport failure (`axios` throw) whose JS string rendering is `e`.
* The `while` loop is rendered as a fuel-indexed recursion; `none` means the
  fuel ran out with the loop still running.  Besides the outcome, the model
  collects the form-encoded parameter set of every request actually issued,
  in order, so that claims about "requests issued" are statable.
* JS `Map<string, SearchResult>` keyed by url with `Array.from(m.values())`
  is modelled by a url-unique list in insertion order.
* JS numbers reaching the handler are modelled by `ℚ` (exact for the
  comparisons with 1 and 100 performed there); `NaN`/`Infinity` are outside
  the model.
* `jsTrim` models JS `String.prototype.trim` (ASCII whitespace class).
-/

/-- The `SearchResult` interface of the paginating variants:
`{ title: string; url: string; snippet?: string }`. -/
structure SearchResult where
  title : String
  url : String
  snippet : Option String
deriving DecidableEq, Repr

/-- An `a.result-link` selection: its `.text()` and its `href` attribute
(`none` models `undefined`, i.e. attribute absent or selection empty). -/
structure RLink where
  text : String
  href : Option String
deriving DecidableEq, Repr

/-- One `input[type="hidden"]` element: its `name` attribute and its `.val()`
(`none` models `undefined` / non-string values). -/
structure HiddenInput where
  name : Option String
  value : Option String
deriving DecidableEq, Repr

/-- What the source reads from one `<tr>` of the response document. -/
structure Row where
  firstCellText : String
  link : RLink
  lastCellLink : RLink
  nextSnippetCell : String
deriving DecidableEq, Repr

/-- One parsed response page: its `<tr>` elements in document order and the
hidden inputs of the located next-page form (`none` = no matching form). -/
structure Page where
  rows : List Row
  nextForm : Option (List HiddenInput)
deriving DecidableEq, Repr

/-- The network oracle: response to the k-th request of the call, or a
transport failure with its string rendering. -/
def Fetch : Type := Nat → Except String Page

/-- The whitespace class of JS `String.prototype.trim`, restricted to the
ASCII range exercised by this server's markup. -/
def isJsWhitespace (c : Char) : Bool :=
  c == ' ' || c == '\t' || c == '\n' || c == '\r' || c == '\x0b' || c == '\x0c'

/-- JS `s.trim()`: strip leading and trailing whitespace. -/
def jsTrim (s : String) : String :=
  String.mk (((s.data.dropWhile isJsWhitespace).reverse.dropWhile isJsWhitespace).reverse)

/-- `\d+` on a character list: one or more decimal digits. -/
def allDigits1 : List Char → Bool
  | [] => false
  | [c] => c.isDigit
  | c :: cs => c.isDigit && allDigits1 cs

/-- The regex test `/^\d+\.$/.test(s)` of the source: the whole string is one
or more digits followed by a period. -/
def isNumberedMarker (s : String) : Bool :=
  allDigits1 s.data.dropLast && (s.data.getLast? == some '.')

/-- V1 per-row extraction (`index.ts`, first variant, rows loop):
marker test on the first cell's trimmed text, then title/href from
`$row.find('a.result-link')` and snippet from the next row's
`td.result-snippet`; the candidate is kept only when `title && url` is
truthy (both non-empty; an `undefined` href is falsy). -/
def rowCandidate (r : Row) : Option SearchResult :=
  if isNumberedMarker (jsTrim r.firstCellText) then
    let title := jsTrim r.link.text
    let url := r.link.href.getD ""
    let snippet := jsTrim r.nextSnippetCell
    if title ≠ "" ∧ url ≠ "" then some ⟨title, url, some snippet⟩ else none
  else none

/-- V2 per-row extraction (second variant): identical but the link is taken
from the last cell (`$row.find('td').last().find('a.result-link')`) and the
source writes `attr('href') || ''` explicitly. -/
def rowCandidate2 (r : Row) : Option SearchResult :=
  if isNumberedMarker (jsTrim r.firstCellText) then
    let title := jsTrim r.lastCellLink.text
    let url := r.lastCellLink.href.getD ""
    let snippet := jsTrim r.nextSnippetCell
    if title ≠ "" ∧ url ≠ "" then some ⟨title, url, some snippet⟩ else none
  else none

/-- `allResults.has(url)` on the insertion-ordered url-unique list. -/
def hasUrl (acc : List SearchResult) (u : String) : Bool :=
  acc.any fun r => r.url == u

/-- One step of the `$('tr').each` loop: state is (accumulated results,
`foundNewResults` flag); a valid candidate with an unseen url is appended
and the flag set. -/
def processRow (extract : Row → Option SearchResult)
    (st : List SearchResult × Bool) (r : Row) : List SearchResult × Bool :=
  match extract r with
  | none => st
  | some c => if hasUrl st.1 c.url then st else (st.1 ++ [c], true)

/-- The whole `$('tr').each` pass over one page (`foundNewResults` starts
`false` on every page). -/
def pageInsert (extract : Row → Option SearchResult)
    (rows : List Row) (acc : List SearchResult) : List SearchResult × Bool :=
  rows.foldl (processRow extract) (acc, false)

/-- Specification-side dedup step: append the candidate unless its url is
already present (first occurrence wins, later ones are dropped whole). -/
def dedupStep (acc : List SearchResult) (c : SearchResult) : List SearchResult :=
  if hasUrl acc c.url then acc else acc ++ [c]

/-- Specification-side first-occurrence deduplication by url, preserving
discovery order; used to characterize what the loop accumulates. -/
def dedupByUrl (cs : List SearchResult) : List SearchResult :=
  cs.foldl dedupStep []

/-- A form-encoded parameter set, as an insertion-ordered record. -/
abbrev Params := List (String × String)

/-- JS object property assignment `ps[k] = v`: an existing key keeps its
position and gets the new value, a new key is appended. -/
def recordSet : Params → String → String → Params
  | [], k, v => [(k, v)]
  | (k', v') :: rest, k, v =>
    if k' = k then (k, v) :: rest else (k', v') :: recordSet rest k v

/-- The two base parameters `{ q: query, kl: 'us-en' }`. -/
def baseParams (q : String) : Params := [("q", q), ("kl", "us-en")]

/-- Fold one hidden input into a parameter record, as both variants do:
`if (name && typeof value === 'string') params[name] = value`. -/
def hiddenStep (ps : Params) (i : HiddenInput) : Params :=
  match i.name, i.value with
  | some n, some v => if n ≠ "" then recordSet ps n v else ps
  | _, _ => ps

/-- V1 rebuild of `nextPageParams`: start from the two base parameters and
assign every hidden input of the located form in order. -/
def rebuildParams (q : String) (inputs : List HiddenInput) : Params :=
  inputs.foldl hiddenStep (baseParams q)

/-- V2 rebuild of `nextParams`: start from `{}` and assign every hidden
input of the located form in order. -/
def extractHidden (inputs : List HiddenInput) : Params :=
  inputs.foldl hiddenStep []

/-- JS object spread `{ ...base, ...extra }`: assign the keys of `extra`
over `base` in order. -/
def overlayParams (base extra : Params) : Params :=
  extra.foldl (fun ps kv => recordSet ps kv.1 kv.2) base

deriving instance DecidableEq for Except

/-- Result of one run of a paginating loop: the final outcome (results or a
propagated transport failure) and the parameter sets of all requests
issued, in order. -/
structure LoopResult where
  out : Except String (List SearchResult)
  requests : List Params
deriving DecidableEq, Repr

/-- The V1 `while (allResults.size < maxResults)` loop, fuel-indexed.
State: next request index `k`, current `nextPageParams` `ps`, accumulated
results `acc`.  Mirrors, in order: the top-of-loop size check, the POST, the
rows pass, the `!foundNewResults || size >= maxResults` break, the next-page
form lookup (`break` when absent), the parameter rebuild, and the final
`Array.from(allResults.values()).slice(0, maxResults)`. -/
def searchGo (fetch : Fetch) (q : String) (M : Nat) :
    Nat → Nat → Params → List SearchResult → Option LoopResult
  | 0, _, _, _ => none
  | fuel + 1, k, ps, acc =>
    if acc.length < M then
      match fetch k with
      | .error e => some ⟨.error e, [ps]⟩
      | .ok page =>
        let pr := pageInsert rowCandidate page.rows acc
        if pr.2 = false ∨ M ≤ pr.1.length then
          some ⟨.ok (pr.1.take M), [ps]⟩
        else
          match page.nextForm with
          | none => some ⟨.ok (pr.1.take M), [ps]⟩
          | some inputs =>
            match searchGo fetch q M fuel (k + 1) (rebuildParams q inputs) pr.1 with
            | none => none
            | some lr => some ⟨lr.out, ps :: lr.requests⟩
    else
      some ⟨.ok (acc.take M), []⟩

/-- V1 `searchDuckDuckGo(query, maxResults)`: the loop started with
`nextPageParams = { q: query, kl: 'us-en' }` and an empty result map. -/
def searchDuckDuckGoV1 (fetch : Fetch) (q : String) (M : Nat) (fuel : Nat) :
    Option LoopResult :=
  searchGo fetch q M fuel 0 (baseParams q) []

/-- The V2 loop.  Differences from V1: the request body is
`{ q, kl, ...nextParams }` built at send time, the link is read from the
last cell, `nextParams` is rebuilt from `{}`, and an empty rebuild breaks
the loop (`if (!Object.keys(nextParams).length) break`). -/
def searchGo2 (fetch : Fetch) (q : String) (M : Nat) :
    Nat → Nat → Params → List SearchResult → Option LoopResult
  | 0, _, _, _ => none
  | fuel + 1, k, nextParams, acc =>
    if acc.length < M then
      let ps := overlayParams (baseParams q) nextParams
      match fetch k with
      | .error e => some ⟨.error e, [ps]⟩
      | .ok page =>
        let pr := pageInsert rowCandidate2 page.rows acc
        if pr.2 = false ∨ M ≤ pr.1.length then
          some ⟨.ok (pr.1.take M), [ps]⟩
        else
          match page.nextForm with
          | none => some ⟨.ok (pr.1.take M), [ps]⟩
          | some inputs =>
            let np := extractHidden inputs
            if np = [] then some ⟨.ok (pr.1.take M), [ps]⟩
            else
              match searchGo2 fetch q M fuel (k + 1) np pr.1 with
              | none => none
              | some lr => some ⟨lr.out, ps :: lr.requests⟩
    else
      some ⟨.ok (acc.take M), []⟩

/-- V2 `searchDuckDuckGo(query, maxResults)`: the loop started with
`nextParams = {}` and an empty result map. -/
def searchDuckDuckGoV2 (fetch : Fetch) (q : String) (M : Nat) (fuel : Nat) :
    Option LoopResult :=
  searchGo2 fetch q M fuel 0 [] []

/-- The valid candidates a page contributes under extraction `extract`:
`[]` for a failed request (the loop aborts there anyway). -/
def candsOfWith (extract : Row → Option SearchResult) (fetch : Fetch) (k : Nat) :
    List SearchResult :=
  match fetch k with
  | .ok p => p.rows.filterMap extract
  | .error _ => []

/-- All valid candidates of the first `n` pages, in page-then-row order. -/
def candsUpToWith (extract : Row → Option SearchResult) (fetch : Fetch) (n : Nat) :
    List SearchResult :=
  (List.range n).flatMap (candsOfWith extract fetch)

/-- Page-then-row candidate stream of the first `n` pages under V1
extraction. -/
abbrev candsUpTo (fetch : Fetch) (n : Nat) : List SearchResult :=
  candsUpToWith rowCandidate fetch n

/-- Page-then-row candidate stream of the first `n` pages under V2
extraction. -/
abbrev candsUpTo2 (fetch : Fetch) (n : Nat) : List SearchResult :=
  candsUpToWith rowCandidate2 fetch n

theorem foldl_processRow_fst (e : Row → Option SearchResult) :
    ∀ (rows : List Row) (acc : List SearchResult) (b : Bool),
      (rows.foldl (processRow e) (acc, b)).1 = (rows.filterMap e).foldl dedupStep acc := by
  intro rows
  induction rows with
  | nil => intro acc b; rfl
  | cons r rows ih =>
    intro acc b
    simp only [List.foldl_cons, List.filterMap_cons]
    cases he : e r with
    | none => simpa [processRow, he] using ih acc b
    | some c =>
      simp only [processRow, he, List.foldl_cons]
      by_cases hc : hasUrl acc c.url = true
      · simp only [hc, if_true, dedupStep, if_pos hc]
        exact ih acc b
      · simp only [hc, if_false, Bool.false_eq_true, dedupStep, if_neg hc]
        exact ih (acc ++ [c]) true

/-- The `$('tr').each` pass accumulates exactly the first-occurrence dedup of
the page's valid candidates on top of the incoming accumulator. -/
theorem pageInsert_fst (e : Row → Option SearchResult) (rows : List Row)
    (acc : List SearchResult) :
    (pageInsert e rows acc).1 = (rows.filterMap e).foldl dedupStep acc :=
  foldl_processRow_fst e rows acc false

theorem candsUpToWith_succ (e : Row → Option SearchResult) (fetch : Fetch) (n : Nat) :
    candsUpToWith e fetch (n + 1) = candsUpToWith e fetch n ++ candsOfWith e fetch n := by
  unfold candsUpToWith
  rw [List.range_succ, List.flatMap_append]
  simp

theorem dedupByUrl_append (xs ys : List SearchResult) :
    dedupByUrl (xs ++ ys) = ys.foldl dedupStep (dedupByUrl xs) := by
  rw [dedupByUrl, List.foldl_append, dedupByUrl]

theorem nodup_foldl_dedupStep :
    ∀ (cs acc : List SearchResult),
      (acc.map SearchResult.url).Nodup →
      ((cs.foldl dedupStep acc).map SearchResult.url).Nodup := by
  intro cs
  induction cs with
  | nil => intro acc h; exact h
  | cons c cs ih =>
    intro acc h
    simp only [List.foldl_cons]
    apply ih
    unfold dedupStep
    by_cases hc : hasUrl acc c.url = true
    · rw [if_pos hc]; exact h
    · rw [if_neg hc]
      have hnm : c.url ∉ acc.map SearchResult.url := by
        intro hmem
        rcases List.mem_map.mp hmem with ⟨r, hr, hurl⟩
        apply hc
        unfold hasUrl
        rw [List.any_eq_true]
        exact ⟨r, hr, by simp [hurl]⟩
      simp [List.nodup_append, h, hnm]

/-- Every url in the running accumulator is reported by `hasUrl`. -/
theorem hasUrl_of_mem {acc : List SearchResult} {r : SearchResult}
    (h : r ∈ acc) : hasUrl acc r.url = true := by
  unfold hasUrl
  rw [List.any_eq_true]
  exact ⟨r, h, by simp⟩

theorem mem_foldl_dedupStep :
    ∀ (cs acc : List SearchResult) (r : SearchResult),
      r ∈ cs.foldl dedupStep acc → r ∈ acc ∨ r ∈ cs := by
  intro cs
  induction cs with
  | nil => intro acc r h; exact Or.inl h
  | cons c cs ih =>
    intro acc r h
    simp only [List.foldl_cons] at h
    rcases ih (dedupStep acc c) r h with h' | h'
    · unfold dedupStep at h'
      by_cases hc : hasUrl acc c.url = true
      · rw [if_pos hc] at h'; exact Or.inl h'
      · rw [if_neg hc] at h'
        rcases List.mem_append.mp h' with h'' | h''
        · exact Or.inl h''
        · simp only [List.mem_singleton] at h''
          subst h''
          exact Or.inr (List.mem_cons_self _ _)
    · exact Or.inr (List.mem_cons_of_mem _ h')

/-- Shape of a V1 valid candidate: where each field comes from and the
non-emptiness of title and url. -/
theorem rowCandidate_some {r : Row} {c : SearchResult} (h : rowCandidate r = some c) :
    isNumberedMarker (jsTrim r.firstCellText) = true ∧
    c.title = jsTrim r.link.text ∧ c.url = r.link.href.getD "" ∧
    c.snippet = some (jsTrim r.nextSnippetCell) ∧ c.title ≠ "" ∧ c.url ≠ "" := by
  unfold rowCandidate at h
  by_cases hm : isNumberedMarker (jsTrim r.firstCellText) = true
  · rw [if_pos hm] at h
    by_cases hv : jsTrim r.link.text ≠ "" ∧ r.link.href.getD "" ≠ ""
    · rw [if_pos hv] at h
      injection h with h
      subst h
      exact ⟨hm, rfl, rfl, rfl, hv.1, hv.2⟩
    · rw [if_neg hv] at h; cases h
  · rw [if_neg hm] at h; cases h

/-- Shape of a V2 valid candidate. -/
theorem rowCandidate2_some {r : Row} {c : SearchResult} (h : rowCandidate2 r = some c) :
    isNumberedMarker (jsTrim r.firstCellText) = true ∧
    c.title = jsTrim r.lastCellLink.text ∧ c.url = r.lastCellLink.href.getD "" ∧
    c.snippet = some (jsTrim r.nextSnippetCell) ∧ c.title ≠ "" ∧ c.url ≠ "" := by
  unfold rowCandidate2 at h
  by_cases hm : isNumberedMarker (jsTrim r.firstCellText) = true
  · rw [if_pos hm] at h
    by_cases hv : jsTrim r.lastCellLink.text ≠ "" ∧ r.lastCellLink.href.getD "" ≠ ""
    · rw [if_pos hv] at h
      injection h with h
      subst h
      exact ⟨hm, rfl, rfl, rfl, hv.1, hv.2⟩
    · rw [if_neg hv] at h; cases h
  · rw [if_neg hm] at h; cases h

/-- Master characterization of a successful V1 loop run started at request
index `k` with an accumulator equal to the dedup of all earlier pages'
candidates: the returned results are the first-occurrence dedup of all
fetched pages' candidates truncated to `M`, one request was issued per
remaining page, every page before the last fetched fine, and the run ended
either because the maximum was already reached or at a last page that found
nothing new, filled the maximum, or had no next-page form. -/
theorem searchGo_ok_char (fetch : Fetch) (q : String) (M : Nat) :
    ∀ (fuel k : Nat) (ps : Params) (acc : List SearchResult) (lr : LoopResult)
      (rs : List SearchResult),
      acc = dedupByUrl (candsUpToWith rowCandidate fetch k) →
      searchGo fetch q M fuel k ps acc = some lr →
      lr.out = .ok rs →
      ∃ n, k ≤ n ∧
        rs = (dedupByUrl (candsUpToWith rowCandidate fetch n)).take M ∧
        lr.requests.length = n - k ∧
        (∀ j, k ≤ j → j < n → ∃ p, fetch j = .ok p) ∧
        ((n = k ∧ M ≤ acc.length) ∨
          (k < n ∧ ∃ p, fetch (n - 1) = .ok p ∧
            ((pageInsert rowCandidate p.rows
                (dedupByUrl (candsUpToWith rowCandidate fetch (n - 1)))).2 = false ∨
             M ≤ (pageInsert rowCandidate p.rows
                (dedupByUrl (candsUpToWith rowCandidate fetch (n - 1)))).1.length ∨
             p.nextForm = none))) := by
  intro fuel
  induction fuel with
  | zero =>
    intro k ps acc lr rs _ h _
    exact absurd h (by simp [searchGo])
  | succ fuel ih =>
    intro k ps acc lr rs hacc h ho
    rw [searchGo] at h
    by_cases hlt : acc.length < M
    · rw [if_pos hlt] at h
      cases hfk : fetch k with
      | error e =>
        simp only [hfk] at h
        injection h with h
        subst h
        simp at ho
      | ok page =>
        simp only [hfk] at h
        have hstep : (pageInsert rowCandidate page.rows acc).1 =
            dedupByUrl (candsUpToWith rowCandidate fetch (k + 1)) := by
          rw [pageInsert_fst, hacc, candsUpToWith_succ, dedupByUrl_append]
          congr 1
          unfold candsOfWith
          rw [hfk]
        by_cases hbr : (pageInsert rowCandidate page.rows acc).2 = false ∨
            M ≤ (pageInsert rowCandidate page.rows acc).1.length
        · rw [if_pos hbr] at h
          injection h with h
          subst h
          simp only at ho
          injection ho with ho
          refine ⟨k + 1, by omega, ?_, by simp, ?_, ?_⟩
          · rw [← ho, hstep]
          · intro j hj hj'
            have : j = k := by omega
            subst this
            exact ⟨page, hfk⟩
          · refine Or.inr ⟨by omega, page, ?_, ?_⟩
            · simpa using hfk
            · have hk1 : k + 1 - 1 = k := rfl
              rw [hk1, ← hacc]
              rcases hbr with hb | hb
              · exact Or.inl hb
              · exact Or.inr (Or.inl hb)
        · rw [if_neg hbr] at h
          cases hnf : page.nextForm with
          | none =>
            simp only [hnf] at h
            injection h with h
            subst h
            simp only at ho
            injection ho with ho
            refine ⟨k + 1, by omega, ?_, by simp, ?_, ?_⟩
            · rw [← ho, hstep]
            · intro j hj hj'
              have : j = k := by omega
              subst this
              exact ⟨page, hfk⟩
            · refine Or.inr ⟨by omega, page, ?_, ?_⟩
              · simpa using hfk
              · have hk1 : k + 1 - 1 = k := rfl
                rw [hk1]
                exact Or.inr (Or.inr hnf)
          | some inputs =>
            simp only [hnf] at h
            cases hrec : searchGo fetch q M fuel (k + 1) (rebuildParams q inputs)
                (pageInsert rowCandidate page.rows acc).1 with
            | none => rw [hrec] at h; cases h
            | some lr' =>
              rw [hrec] at h
              injection h with h
              subst h
              simp only at ho
              rcases ih (k + 1) (rebuildParams q inputs)
                  (pageInsert rowCandidate page.rows acc).1 lr' rs hstep hrec ho with
                ⟨n, hkn, hrs, hlen, hfetchOk, hexit⟩
              refine ⟨n, by omega, hrs, ?_, ?_, ?_⟩
              · simp only [List.length_cons]
                omega
              · intro j hj hj'
                by_cases hjk : j = k
                · subst hjk; exact ⟨page, hfk⟩
                · exact hfetchOk j (by omega) hj'
              · rcases hexit with ⟨hn, hM⟩ | ⟨hkn', hp⟩
                · exfalso
                  push_neg at hbr
                  omega
                · exact Or.inr ⟨by omega, hp⟩
    · rw [if_neg hlt] at h
      injection h with h
      subst h
      simp only at ho
      injection ho with ho
      refine ⟨k, le_refl k, ?_, by simp, ?_, Or.inl ⟨rfl, by omega⟩⟩
      · rw [← ho, hacc]
      · intro j hj hj'
        omega

/-- Master characterization of a successful V2 loop run; as for V1, with the
additional exit condition "no continuation parameter was extracted". -/
theorem searchGo2_ok_char (fetch : Fetch) (q : String) (M : Nat) :
    ∀ (fuel k : Nat) (nps : Params) (acc : List SearchResult) (lr : LoopResult)
      (rs : List SearchResult),
      acc = dedupByUrl (candsUpToWith rowCandidate2 fetch k) →
      searchGo2 fetch q M fuel k nps acc = some lr →
      lr.out = .ok rs →
      ∃ n, k ≤ n ∧
        rs = (dedupByUrl (candsUpToWith rowCandidate2 fetch n)).take M ∧
        lr.requests.length = n - k ∧
        (∀ j, k ≤ j → j < n → ∃ p, fetch j = .ok p) ∧
        ((n = k ∧ M ≤ acc.length) ∨
          (k < n ∧ ∃ p, fetch (n - 1) = .ok p ∧
            ((pageInsert rowCandidate2 p.rows
                (dedupByUrl (candsUpToWith rowCandidate2 fetch (n - 1)))).2 = false ∨
             M ≤ (pageInsert rowCandidate2 p.rows
                (dedupByUrl (candsUpToWith rowCandidate2 fetch (n - 1)))).1.length ∨
             p.nextForm = none ∨
             (∃ inputs, p.nextForm = some inputs ∧ extractHidden inputs = [])))) := by
  intro fuel
  induction fuel with
  | zero =>
    intro k nps acc lr rs _ h _
    exact absurd h (by simp [searchGo2])
  | succ fuel ih =>
    intro k nps acc lr rs hacc h ho
    rw [searchGo2] at h
    by_cases hlt : acc.length < M
    · rw [if_pos hlt] at h
      cases hfk : fetch k with
      | error e =>
        simp only [hfk] at h
        injection h with h
        subst h
        simp at ho
      | ok page =>
        simp only [hfk] at h
        have hstep : (pageInsert rowCandidate2 page.rows acc).1 =
            dedupByUrl (candsUpToWith rowCandidate2 fetch (k + 1)) := by
          rw [pageInsert_fst, hacc, candsUpToWith_succ, dedupByUrl_append]
          congr 1
          unfold candsOfWith
          rw [hfk]
        by_cases hbr : (pageInsert rowCandidate2 page.rows acc).2 = false ∨
            M ≤ (pageInsert rowCandidate2 page.rows acc).1.length
        · rw [if_pos hbr] at h
          injection h with h
          subst h
          simp only at ho
          injection ho with ho
          refine ⟨k + 1, by omega, ?_, by simp, ?_, ?_⟩
          · rw [← ho, hstep]
          · intro j hj hj'
            have : j = k := by omega
            subst this
            exact ⟨page, hfk⟩
          · refine Or.inr ⟨by omega, page, ?_, ?_⟩
            · simpa using hfk
            · have hk1 : k + 1 - 1 = k := rfl
              rw [hk1, ← hacc]
              rcases hbr with hb | hb
              · exact Or.inl hb
              · exact Or.inr (Or.inl hb)
        · rw [if_neg hbr] at h
          cases hnf : page.nextForm with
          | none =>
            simp only [hnf] at h
            injection h with h
            subst h
            simp only at ho
            injection ho with ho
            refine ⟨k + 1, by omega, ?_, by simp, ?_, ?_⟩
            · rw [← ho, hstep]
            · intro j hj hj'
              have : j = k := by omega
              subst this
              exact ⟨page, hfk⟩
            · refine Or.inr ⟨by omega, page, ?_, ?_⟩
              · simpa using hfk
              · have hk1 : k + 1 - 1 = k := rfl
                rw [hk1]
                exact Or.inr (Or.inr (Or.inl hnf))
          | some inputs =>
            simp only [hnf] at h
            by_cases hnp : extractHidden inputs = []
            · rw [if_pos hnp] at h
              injection h with h
              subst h
              simp only at ho
              injection ho with ho
              refine ⟨k + 1, by omega, ?_, by simp, ?_, ?_⟩
              · rw [← ho, hstep]
              · intro j hj hj'
                have : j = k := by omega
                subst this
                exact ⟨page, hfk⟩
              · refine Or.inr ⟨by omega, page, ?_, ?_⟩
                · simpa using hfk
                · have hk1 : k + 1 - 1 = k := rfl
                  rw [hk1]
                  exact Or.inr (Or.inr (Or.inr ⟨inputs, hnf, hnp⟩))
            · rw [if_neg hnp] at h
              cases hrec : searchGo2 fetch q M fuel (k + 1) (extractHidden inputs)
                  (pageInsert rowCandidate2 page.rows acc).1 with
              | none => rw [hrec] at h; cases h
              | some lr' =>
                rw [hrec] at h
                injection h with h
                subst h
                simp only at ho
                rcases ih (k + 1) (extractHidden inputs)
                    (pageInsert rowCandidate2 page.rows acc).1 lr' rs hstep hrec ho with
                  ⟨n, hkn, hrs, hlen, hfetchOk, hexit⟩
                refine ⟨n, by omega, hrs, ?_, ?_, ?_⟩
                · simp only [List.length_cons]
                  omega
                · intro j hj hj'
                  by_cases hjk : j = k
                  · subst hjk; exact ⟨page, hfk⟩
                  · exact hfetchOk j (by omega) hj'
                · rcases hexit with ⟨hn, hM⟩ | ⟨hkn', hp⟩
                  · exfalso
                    push_neg at hbr
                    omega
                  · exact Or.inr ⟨by omega, hp⟩
    · rw [if_neg hlt] at h
      injection h with h
      subst h
      simp only at ho
      injection ho with ho
      refine ⟨k, le_refl k, ?_, by simp, ?_, Or.inl ⟨rfl, by omega⟩⟩
      · rw [← ho, hacc]
      · intro j hj hj'
        omega

/-- A V1 run that ends in a transport failure does so at its very last
request: the failing page is the last one fetched, every earlier page
fetched fine, and no request is issued after the failure. -/
theorem searchGo_error_char (fetch : Fetch) (q : String) (M : Nat) :
    ∀ (fuel k : Nat) (ps : Params) (acc : List SearchResult) (lr : LoopResult)
      (e : String),
      searchGo fetch q M fuel k ps acc = some lr →
      lr.out = .error e →
      ∃ n, k ≤ n ∧
        lr.requests.length = n + 1 - k ∧
        fetch n = .error e ∧
        (∀ j, k ≤ j → j < n → ∃ p, fetch j = .ok p) := by
  intro fuel
  induction fuel with
  | zero =>
    intro k ps acc lr e h _
    exact absurd h (by simp [searchGo])
  | succ fuel ih =>
    intro k ps acc lr e h ho
    rw [searchGo] at h
    by_cases hlt : acc.length < M
    · rw [if_pos hlt] at h
      cases hfk : fetch k with
      | error e' =>
        simp only [hfk] at h
        injection h with h
        subst h
        simp only at ho
        injection ho with ho
        subst ho
        refine ⟨k, le_refl k, by simp, hfk, ?_⟩
        intro j hj hj'
        omega
      | ok page =>
        simp only [hfk] at h
        by_cases hbr : (pageInsert rowCandidate page.rows acc).2 = false ∨
            M ≤ (pageInsert rowCandidate page.rows acc).1.length
        · rw [if_pos hbr] at h
          injection h with h
          subst h
          simp at ho
        · rw [if_neg hbr] at h
          cases hnf : page.nextForm with
          | none =>
            simp only [hnf] at h
            injection h with h
            subst h
            simp at ho
          | some inputs =>
            simp only [hnf] at h
            cases hrec : searchGo fetch q M fuel (k + 1) (rebuildParams q inputs)
                (pageInsert rowCandidate page.rows acc).1 with
            | none => rw [hrec] at h; cases h
            | some lr' =>
              rw [hrec] at h
              injection h with h
              subst h
              simp only at ho
              rcases ih (k + 1) (rebuildParams q inputs)
                  (pageInsert rowCandidate page.rows acc).1 lr' e hrec ho with
                ⟨n, hkn, hlen, hfe, hfetchOk⟩
              refine ⟨n, by omega, ?_, hfe, ?_⟩
              · simp only [List.length_cons]
                omega
              · intro j hj hj'
                by_cases hjk : j = k
                · subst hjk; exact ⟨page, hfk⟩
                · exact hfetchOk j (by omega) hj'
    · rw [if_neg hlt] at h
      injection h with h
      subst h
      simp at ho

/-- A JS value as far as the handler's `typeof` checks discriminate them.
Finite JS numbers are modelled by `ℚ` (exact for the comparisons with 1 and
100 performed by the handler); `jsObject` stands for any other object. -/
inductive JSValue where
  | jsStr (s : String)
  | jsNum (x : ℚ)
  | jsBool (b : Bool)
  | jsNull
  | jsUndefined
  | jsObject
deriving DecidableEq, Repr

/-- The two properties the handler destructures out of
`request.params.arguments` (`jsUndefined` models an absent property). -/
structure CallArgs where
  query : JSValue
  maxResults : JSValue
deriving DecidableEq, Repr

/-- Outcome of the handler's validation prologue: either a thrown
`Error(msg)` before `searchDuckDuckGo` is called, or the call
`searchDuckDuckGo(q, maxResults)` with the validated values. -/
inductive ValidationOutcome where
  | rejected (msg : String)
  | search (q : String) (maxResults : ℚ)
deriving DecidableEq, Repr

/-- The `CallToolRequestSchema` handler's prologue, in source order: tool
name check, arguments-object check, destructuring with `maxResults = 30`
default, query type check, then the maxResults check
`typeof maxResults !== "number" || maxResults < 1 || maxResults > 100`
(the `maxResults !== undefined` conjunct is vacuous after the default).
`hasArgs` models `arguments` being present and of object type. -/
def validateCall (name : String) (hasArgs : Bool) (args : CallArgs) :
    ValidationOutcome :=
  if name ≠ "search" then .rejected "Unknown tool"
  else if hasArgs = false then .rejected "Invalid arguments"
  else
    match args.query with
    | .jsStr q =>
      match (match args.maxResults with
             | .jsUndefined => JSValue.jsNum 30
             | v => v) with
      | .jsNum x =>
        if x < 1 ∨ 100 < x then
          .rejected "Invalid maxResults parameter (must be between 1 and 100)"
        else .search q x
      | _ => .rejected "Invalid maxResults parameter (must be between 1 and 100)"
    | _ => .rejected "Invalid query parameter"

/-- The number of loop iterations induced by `while (size < maxResults)` for
a validated (rational) maxResults: for a natural `size`,
`size < x ↔ size < ⌈x⌉`, so the loop behaves exactly as with the natural
bound `⌈x⌉` (validation guarantees `x ≥ 1`). -/
def loopBound (x : ℚ) : Nat := (Int.ceil x).toNat

/-- Requests issued by one full tool invocation against the V1 search:
a validation rejection throws before `searchDuckDuckGo` is entered, so no
request is issued; otherwise the requests are those of the loop run
(`none` when the fuel ran out mid-loop). -/
def callRequestCountV1 (fetch : Fetch) (fuel : Nat) (name : String)
    (hasArgs : Bool) (args : CallArgs) : Option Nat :=
  match validateCall name hasArgs args with
  | .rejected _ => some 0
  | .search q mr =>
    match searchDuckDuckGoV1 fetch q (loopBound mr) fuel with
    | none => none
    | some lr => some lr.requests.length

/-- One `content` text entry of a tool reply together with the `isError`
flag (absent on success, which is falsy, hence `false` here). -/
structure ToolText where
  text : String
  isError : Bool
deriving DecidableEq, Repr

/-- JSON string escaping as performed by `JSON.stringify` on the character
set exercised here (quote, backslash and the named control escapes). -/
def jsonEscape (s : String) : String :=
  s.data.foldl (fun acc c =>
    acc ++ (if c = '"' then "\\\""
            else if c = '\\' then "\\\\"
            else if c = '\n' then "\\n"
            else if c = '\r' then "\\r"
            else if c = '\t' then "\\t"
            else String.singleton c)) ""

/-- One object of `JSON.stringify(results, null, 2)`; an `undefined`
snippet property is omitted. -/
def renderResult (r : SearchResult) : String :=
  "  \x7b\n    \"title\": \"" ++ jsonEscape r.title ++ "\",\n    \"url\": \"" ++
    jsonEscape r.url ++ "\"" ++
    (match r.snippet with
     | some s => ",\n    \"snippet\": \"" ++ jsonEscape s ++ "\""
     | none => "") ++ "\n  \x7d"

/-- `JSON.stringify(results, null, 2)` for the result array. -/
def renderResults (rs : List SearchResult) : String :=
  match rs with
  | [] => "[]"
  | _ => "[\n" ++ String.intercalate ",\n" (rs.map renderResult) ++ "\n]"

/-- The handler's try/catch around `searchDuckDuckGo`: a successful run is
serialized as text, a propagated failure is caught and returned as a
normal reply with text `Error performing search: ...` and `isError: true`
(the invocation does not raise past this boundary). -/
def wrapOutcome (out : Except String (List SearchResult)) : ToolText :=
  match out with
  | .ok rs => ⟨renderResults rs, false⟩
  | .error e => ⟨"Error performing search: " ++ e, true⟩

/-- The `SearchResult` interface of the unnamed simple variant:
`{ title: string; url: string; date?: string }`; `date` is never written. -/
structure SimpleResult where
  title : String
  url : String
  date : Option String
deriving DecidableEq, Repr

/-- What the simple variant reads from one `<tr>` of `$('table tr')`:
whether `a.result-link` and `span.link-text` selections are non-empty, and
the link's text and href. -/
structure SimpleRow where
  hasResultLink : Bool
  resultLinkText : String
  resultLinkHref : Option String
  hasLinkText : Bool
deriving DecidableEq, Repr

/-- Per-row extraction of the unnamed simple variant: a result is pushed
whenever both selections are non-empty, with no check that the trimmed
title or the href is non-empty. -/
def simpleRowResult (r : SimpleRow) : Option SimpleResult :=
  if r.hasResultLink && r.hasLinkText then
    some ⟨jsTrim r.resultLinkText, r.resultLinkHref.getD "", none⟩
  else none

/-- The unnamed simple `searchDuckDuckGo(query)`: one request, one pass over
the rows, no pagination, no dedup. -/
def searchDuckDuckGoSimple (rows : List SimpleRow) : List SimpleResult :=
  rows.filterMap simpleRowResult

/-- Inserting one fetched page into the dedup of all earlier pages gives the
dedup of all pages through it. -/
theorem pageInsert_dedup_succ (e : Row → Option SearchResult) (fetch : Fetch)
    (k : Nat) (p : Page) (hf : fetch k = .ok p) :
    (pageInsert e p.rows (dedupByUrl (candsUpToWith e fetch k))).1 =
      dedupByUrl (candsUpToWith e fetch (k + 1)) := by
  rw [pageInsert_fst, candsUpToWith_succ, dedupByUrl_append]
  congr 1
  unfold candsOfWith
  rw [hf]

/-- Pathological server for the no-iteration-cap claim: page `k` carries one
fresh valid candidate (url of length `k + 1`) and a next-page form with one
hidden continuation token. -/
def pathUrl (k : Nat) : String := String.mk (List.replicate (k + 1) 'a')

def pathRow (k : Nat) : Row :=
  ⟨"1.", ⟨"t", some (pathUrl k)⟩, ⟨"t", some (pathUrl k)⟩, ""⟩

def pathPage (k : Nat) : Page := ⟨[pathRow k], some [⟨some "nx", some "v"⟩]⟩

def pathFetch : Fetch := fun k => .ok (pathPage k)

def pathResult (k : Nat) : SearchResult := ⟨"t", pathUrl k, some ""⟩

/-- Accumulator after the pathological server's first `k` pages. -/
def pathAcc (k : Nat) : List SearchResult := (List.range k).map pathResult

theorem pathUrl_inj {j k : Nat} (h : pathUrl j = pathUrl k) : j = k := by
  have h2 := congrArg (fun s => s.data.length) h
  simpa [pathUrl] using h2

theorem pathUrl_ne_empty (k : Nat) : pathUrl k ≠ "" := by
  intro h
  have h2 := congrArg (fun s => s.data.length) h
  simp [pathUrl] at h2

theorem pathAcc_length (k : Nat) : (pathAcc k).length = k := by
  simp [pathAcc]

theorem pathAcc_succ (k : Nat) : pathAcc (k + 1) = pathAcc k ++ [pathResult k] := by
  simp [pathAcc, List.range_succ]

theorem rowCandidate_pathRow (k : Nat) :
    rowCandidate (pathRow k) = some (pathResult k) := by
  have hu : (pathRow k).link.href.getD "" ≠ "" := pathUrl_ne_empty k
  have ht : jsTrim (pathRow k).link.text ≠ "" := by
    show jsTrim "t" ≠ ""
    decide
  have hm : isNumberedMarker (jsTrim (pathRow k).firstCellText) = true := by
    show isNumberedMarker (jsTrim "1.") = true
    decide
  simp only [rowCandidate]
  rw [if_pos hm]
  rw [if_pos ⟨ht, hu⟩]
  rfl

theorem pathAcc_hasUrl (k : Nat) : hasUrl (pathAcc k) (pathResult k).url = false := by
  rw [hasUrl, List.any_eq_false]
  intro r hr
  rcases List.mem_map.mp hr with ⟨i, hi, rfl⟩
  simp only [pathResult, beq_iff_eq]
  intro hEq
  have := pathUrl_inj hEq
  rw [List.mem_range] at hi
  omega

theorem path_pageInsert (k : Nat) :
    pageInsert rowCandidate (pathPage k).rows (pathAcc k) = (pathAcc (k + 1), true) := by
  show pageInsert rowCandidate [pathRow k] (pathAcc k) = (pathAcc (k + 1), true)
  rw [pageInsert, List.foldl_cons, List.foldl_nil, processRow, rowCandidate_pathRow]
  simp only [pathAcc_hasUrl, Bool.false_eq_true, if_false]
  rw [pathAcc_succ]

/-- Against the pathological server the V1 loop runs until the maximum is
reached: it issues exactly `M` requests (given fuel for them) and returns
the `M` accumulated results. -/
theorem searchGo_path_count (q : String) (M : Nat) :
    ∀ (fuel k : Nat) (ps : Params), k < M → M ≤ k + fuel →
      ∃ lr, searchGo pathFetch q M fuel k ps (pathAcc k) = some lr ∧
        lr.out = .ok (pathAcc M) ∧ lr.requests.length = M - k := by
  intro fuel
  induction fuel with
  | zero => intro k ps h1 h2; omega
  | succ fuel ih =>
    intro k ps h1 h2
    rw [searchGo]
    rw [if_pos (by rw [pathAcc_length]; exact h1)]
    have hfk : pathFetch k = .ok (pathPage k) := rfl
    simp only [hfk, path_pageInsert]
    by_cases hend : M ≤ k + 1
    · have hM : M = k + 1 := by omega
      rw [if_pos (by right; rw [pathAcc_length]; omega)]
      refine ⟨_, rfl, ?_, by simp only [List.length_cons, List.length_nil]; omega⟩
      simp only []
      rw [List.take_of_length_le (by rw [pathAcc_length]; omega), hM]
    · rw [if_neg (by push_neg; exact ⟨by simp, by rw [pathAcc_length]; omega⟩)]
      simp only [pathPage]
      rcases ih (k + 1) (rebuildParams q [⟨some "nx", some "v"⟩]) (by omega) (by omega) with
        ⟨lr', hrun, hout, hlen⟩
      rw [hrun]
      refine ⟨_, rfl, hout, ?_⟩
      simp only [List.length_cons]
      omega

theorem allDigits1_iff (cs : List Char) :
    allDigits1 cs = true ↔ cs ≠ [] ∧ ∀ c ∈ cs, c.isDigit := by
  induction cs with
  | nil => simp [allDigits1]
  | cons c cs ih =>
    cases cs with
    | nil => simp [allDigits1]
    | cons d ds =>
      have heq : allDigits1 (c :: d :: ds) = (c.isDigit && allDigits1 (d :: ds)) := rfl
      rw [heq, Bool.and_eq_true, ih]
      constructor
      · rintro ⟨h1, _, h2⟩
        constructor
        · simp
        · intro x hx
          rcases List.mem_cons.mp hx with rfl | hx
          · exact h1
          · exact h2 x hx
      · rintro ⟨_, h⟩
        refine ⟨h c (by simp), ?_, ?_⟩
        · simp
        · intro x hx
          exact h x (List.mem_cons_of_mem _ hx)

/-- The hand-rolled marker test agrees with the regex `^\d+\.$`: the string
is a non-empty block of digits followed by a period. -/
theorem isNumberedMarker_iff (s : String) :
    isNumberedMarker s = true ↔
      ∃ ds : List Char, ds ≠ [] ∧ (∀ c ∈ ds, c.isDigit) ∧ s.data = ds ++ ['.'] := by
  rw [isNumberedMarker, Bool.and_eq_true, allDigits1_iff]
  constructor
  · rintro ⟨⟨hne, hdig⟩, hlast⟩
    have hl : s.data.getLast? = some '.' := by
      rcases hlast' : s.data.getLast? with _ | c
      · rw [hlast'] at hlast; cases hlast
      · rw [hlast'] at hlast
        have : c = '.' := by simpa using hlast
        rw [this]
    have hsne : s.data ≠ [] := by
      intro h
      rw [h] at hl
      cases hl
    refine ⟨s.data.dropLast, hne, hdig, ?_⟩
    have hgl : s.data.getLast hsne = '.' := by
      rw [List.getLast?_eq_getLast s.data hsne] at hl
      injection hl
    conv_lhs => rw [← List.dropLast_append_getLast hsne]
    rw [hgl]
  · rintro ⟨ds, hne, hdig, hd⟩
    rw [hd]
    refine ⟨⟨by simpa using hne, ?_⟩, by simp⟩
    intro c hc
    rw [List.dropLast_concat] at hc
    exact hdig c hc

/-- C1: every successful V1 search returns at most one result per url: the
returned sequence is exactly the first-occurrence dedup of the
page-then-row candidate stream of the fetched pages, truncated to the
maximum.  `dedupByUrl` keeps, for each url, the complete first candidate
(title and snippet of the first occurrence; later occurrences never
overwrite) in page-then-row discovery order, so the url list of the output
is duplicate-free and ordered by first discovery. -/
theorem claimC1_dedup_first_occurrence (fetch : Fetch) (q : String) (M fuel : Nat)
    (lr : LoopResult) (rs : List SearchResult)
    (h : searchDuckDuckGoV1 fetch q M fuel = some lr) (ho : lr.out = .ok rs) :
    (rs.map SearchResult.url).Nodup ∧
    rs = (dedupByUrl (candsUpTo fetch lr.requests.length)).take M := by
  rcases searchGo_ok_char fetch q M fuel 0 (baseParams q) [] lr rs rfl h ho with
    ⟨n, _, hrs, hlen, _, _⟩
  have hn : lr.requests.length = n := by omega
  constructor
  · have base := nodup_foldl_dedupStep (candsUpToWith rowCandidate fetch n) [] (by simp)
    rw [hrs, List.map_take]
    exact base.sublist (List.take_sublist _ _)
  · rw [hn]
    exact hrs

def w1Fetch : Fetch := fun k =>
  if k = 0 then
    .ok ⟨[⟨"1.", ⟨"A", some "u1"⟩, ⟨"A", some "u1"⟩, "sa"⟩,
          ⟨"2.", ⟨"B", some "u2"⟩, ⟨"B", some "u2"⟩, "sb"⟩],
         some [⟨some "s", some "1"⟩]⟩
  else if k = 1 then
    .ok ⟨[⟨"1.", ⟨"A2", some "u1"⟩, ⟨"A2", some "u1"⟩, "dup"⟩,
          ⟨"2.", ⟨"C", some "u3"⟩, ⟨"C", some "u3"⟩, "sc"⟩],
         none⟩
  else .ok ⟨[], none⟩

theorem claimC1_witness :
    (([⟨"A", "u1", some "sa"⟩, ⟨"B", "u2", some "sb"⟩, ⟨"C", "u3", some "sc"⟩] :
        List SearchResult).map SearchResult.url).Nodup ∧
    ([⟨"A", "u1", some "sa"⟩, ⟨"B", "u2", some "sb"⟩, ⟨"C", "u3", some "sc"⟩] :
        List SearchResult) = (dedupByUrl (candsUpTo w1Fetch 2)).take 30 :=
  claimC1_dedup_first_occurrence w1Fetch "cats" 30 5
    ⟨.ok [⟨"A", "u1", some "sa"⟩, ⟨"B", "u2", some "sb"⟩, ⟨"C", "u3", some "sc"⟩],
     [baseParams "cats", [("q", "cats"), ("kl", "us-en"), ("s", "1")]]⟩
    [⟨"A", "u1", some "sa"⟩, ⟨"B", "u2", some "sb"⟩, ⟨"C", "u3", some "sc"⟩]
    (by decide) rfl

/-- C2: for a successful V1 search, the returned length is the minimum of
the maximum `M ∈ [1, 100]` and the number `N` of unique valid candidates
the fetched pages supplied: exactly `M` when `N ≥ M` (truncation holds even
when the maximum is reached mid-page, since the whole page is parsed before
`slice(0, maxResults)`), and exactly `N` — a normal success, not an error —
when `N < M`. -/
theorem claimC2_truncation_shortfall (fetch : Fetch) (q : String) (M fuel : Nat)
    (lr : LoopResult) (rs : List SearchResult)
    (_hM1 : 1 ≤ M) (_hM2 : M ≤ 100)
    (h : searchDuckDuckGoV1 fetch q M fuel = some lr) (ho : lr.out = .ok rs) :
    (M ≤ (dedupByUrl (candsUpTo fetch lr.requests.length)).length → rs.length = M) ∧
    ((dedupByUrl (candsUpTo fetch lr.requests.length)).length < M →
      rs.length = (dedupByUrl (candsUpTo fetch lr.requests.length)).length) := by
  rcases searchGo_ok_char fetch q M fuel 0 (baseParams q) [] lr rs rfl h ho with
    ⟨n, _, hrs, hlen, _, _⟩
  have hn : lr.requests.length = n := by omega
  rw [hn]
  unfold candsUpTo
  constructor <;> intro hc <;> rw [hrs] <;> rw [List.length_take] <;> omega

def w2Fetch : Fetch := fun _ =>
  .ok ⟨[⟨"1.", ⟨"A", some "u1"⟩, ⟨"A", some "u1"⟩, "sa"⟩,
        ⟨"2.", ⟨"B", some "u2"⟩, ⟨"B", some "u2"⟩, "sb"⟩], none⟩

theorem claimC2_witness :
    ([⟨"A", "u1", some "sa"⟩, ⟨"B", "u2", some "sb"⟩] : List SearchResult).length =
      (dedupByUrl (candsUpTo w2Fetch 1)).length :=
  (claimC2_truncation_shortfall w2Fetch "dogs" 5 3
    ⟨.ok [⟨"A", "u1", some "sa"⟩, ⟨"B", "u2", some "sb"⟩], [baseParams "dogs"]⟩
    [⟨"A", "u1", some "sa"⟩, ⟨"B", "u2", some "sb"⟩]
    (by decide) (by decide) (by decide) rfl).2 (by decide)

/-- C7: a V1 run that ends in a transport failure surfaces that failure:
the handler's catch turns it into a normal reply with `isError: true` and
the human-readable text `Error performing search: ...` (nothing is raised
past the boundary, and the error outcome carries no partial results), the
failing request is the last one issued (no retry, no request after it),
and every earlier page had fetched fine. -/
theorem claimC7_transport_error_aborts (fetch : Fetch) (q : String) (M fuel : Nat)
    (lr : LoopResult) (e : String)
    (h : searchDuckDuckGoV1 fetch q M fuel = some lr) (ho : lr.out = .error e) :
    wrapOutcome lr.out = ⟨"Error performing search: " ++ e, true⟩ ∧
    ∃ n, lr.requests.length = n + 1 ∧ fetch n = .error e ∧
      ∀ j < n, ∃ p, fetch j = .ok p := by
  rcases searchGo_error_char fetch q M fuel 0 (baseParams q) [] lr e h ho with
    ⟨n, _, hlen, hfe, hok⟩
  refine ⟨by rw [ho]; rfl, n, by omega, hfe, fun j hj => hok j (Nat.zero_le j) hj⟩

def w7Fetch : Fetch := fun k =>
  if k = 0 then
    .ok ⟨[⟨"1.", ⟨"A", some "u1"⟩, ⟨"A", some "u1"⟩, "sa"⟩],
         some [⟨some "s", some "1"⟩]⟩
  else .error "AxiosError: socket hang up"

theorem claimC7_witness :
    wrapOutcome (Except.error "AxiosError: socket hang up") =
      ⟨"Error performing search: AxiosError: socket hang up", true⟩ ∧
    ∃ n, ([baseParams "x", [("q", "x"), ("kl", "us-en"), ("s", "1")]] :
        List Params).length = n + 1 ∧
      w7Fetch n = .error "AxiosError: socket hang up" ∧
      ∀ j < n, ∃ p, w7Fetch j = .ok p :=
  claimC7_transport_error_aborts w7Fetch "x" 30 5
    ⟨.error "AxiosError: socket hang up",
     [baseParams "x", [("q", "x"), ("kl", "us-en"), ("s", "1")]]⟩
    "AxiosError: socket hang up" (by decide) rfl

/-- C9: the V1 pagination loop has no iteration cap.  Part one: against the
pathological server `pathFetch` — every page supplies one not-yet-seen valid
candidate and a next-page form with a continuation token — the loop below
the caller's maximum never stops on its own: given fuel, it issues exactly
`M` requests for every maximum `M`, so no bound independent of `M` exists.
Part two: whenever a successful run returns fewer than `M` results, the
loop exited at a last fetched page that either found no new result or had
no next-page form — the only exits besides reaching the maximum. -/
theorem claimC9_no_iteration_cap :
    (∀ M fuel : Nat, 1 ≤ M → M ≤ fuel →
      ∃ lr, searchDuckDuckGoV1 pathFetch "any" M fuel = some lr ∧
        lr.out = .ok (pathAcc M) ∧ lr.requests.length = M) ∧
    (∀ (fetch : Fetch) (q : String) (M fuel : Nat) (lr : LoopResult)
       (rs : List SearchResult),
       searchDuckDuckGoV1 fetch q M fuel = some lr → lr.out = .ok rs →
       rs.length < M →
       ∃ n p, lr.requests.length = n + 1 ∧ fetch n = .ok p ∧
         ((pageInsert rowCandidate p.rows (dedupByUrl (candsUpTo fetch n))).2 = false ∨
          p.nextForm = none)) := by
  constructor
  · intro M fuel hM hf
    rcases searchGo_path_count "any" M fuel 0 (baseParams "any") (by omega) (by omega) with
      ⟨lr, hrun, hout, hlen⟩
    refine ⟨lr, ?_, hout, by omega⟩
    rw [searchDuckDuckGoV1]
    have h0 : pathAcc 0 = [] := rfl
    rw [← h0]
    exact hrun
  · intro fetch q M fuel lr rs h ho hlt
    rcases searchGo_ok_char fetch q M fuel 0 (baseParams q) [] lr rs rfl h ho with
      ⟨n, _, hrs, hlen, _, hexit⟩
    have hn : lr.requests.length = n := by omega
    have hllen : (dedupByUrl (candsUpToWith rowCandidate fetch n)).length < M := by
      rw [hrs, List.length_take] at hlt
      omega
    rcases hexit with ⟨hnk, hM0⟩ | ⟨hpos, p, hfp, hcond⟩
    · exfalso
      simp only [List.length_nil] at hM0
      omega
    · refine ⟨n - 1, p, by omega, hfp, ?_⟩
      have hstep := pageInsert_dedup_succ rowCandidate fetch (n - 1) p hfp
      have hn1 : n - 1 + 1 = n := by omega
      rw [hn1] at hstep
      unfold candsUpTo
      rcases hcond with hc | hc | hc
      · exact Or.inl hc
      · exfalso
        rw [hstep] at hc
        omega
      · exact Or.inr hc

theorem claimC9_witness :
    ∃ lr, searchDuckDuckGoV1 pathFetch "any" 3 5 = some lr ∧
      lr.out = .ok (pathAcc 3) ∧ lr.requests.length = 3 :=
  claimC9_no_iteration_cap.1 3 5 (by omega) (by omega)

/-- C10: every result a successful paginating search (either variant)
returns comes from a row whose extraction set the snippet to
`some (trimmed text of the following row's snippet cell)` — the empty
string when that cell is absent, since `.text()` of an empty selection is
`""` — so the optional `snippet` field is always present on stored
results. -/
theorem claimC10_snippet_always_present :
    (∀ (fetch : Fetch) (q : String) (M fuel : Nat) (lr : LoopResult)
       (rs : List SearchResult),
       searchDuckDuckGoV1 fetch q M fuel = some lr → lr.out = .ok rs →
       ∀ r ∈ rs, ∃ row : Row, rowCandidate row = some r ∧
         r.snippet = some (jsTrim row.nextSnippetCell)) ∧
    (∀ (fetch : Fetch) (q : String) (M fuel : Nat) (lr : LoopResult)
       (rs : List SearchResult),
       searchDuckDuckGoV2 fetch q M fuel = some lr → lr.out = .ok rs →
       ∀ r ∈ rs, ∃ row : Row, rowCandidate2 row = some r ∧
         r.snippet = some (jsTrim row.nextSnippetCell)) := by
  constructor
  · intro fetch q M fuel lr rs h ho r hr
    rcases searchGo_ok_char fetch q M fuel 0 (baseParams q) [] lr rs rfl h ho with
      ⟨n, _, hrs, _, _, _⟩
    rw [hrs] at hr
    have hr2 := List.mem_of_mem_take hr
    rcases mem_foldl_dedupStep _ [] r hr2 with h0 | hmem
    · cases h0
    · rcases List.mem_flatMap.mp hmem with ⟨k, _, hk⟩
      unfold candsOfWith at hk
      cases hfk : fetch k with
      | error e => rw [hfk] at hk; cases hk
      | ok p =>
        rw [hfk] at hk
        rcases List.mem_filterMap.mp hk with ⟨row, _, hrow⟩
        exact ⟨row, hrow, (rowCandidate_some hrow).2.2.2.1⟩
  · intro fetch q M fuel lr rs h ho r hr
    rcases searchGo2_ok_char fetch q M fuel 0 [] [] lr rs rfl h ho with
      ⟨n, _, hrs, _, _, _⟩
    rw [hrs] at hr
    have hr2 := List.mem_of_mem_take hr
    rcases mem_foldl_dedupStep _ [] r hr2 with h0 | hmem
    · cases h0
    · rcases List.mem_flatMap.mp hmem with ⟨k, _, hk⟩
      unfold candsOfWith at hk
      cases hfk : fetch k with
      | error e => rw [hfk] at hk; cases hk
      | ok p =>
        rw [hfk] at hk
        rcases List.mem_filterMap.mp hk with ⟨row, _, hrow⟩
        exact ⟨row, hrow, (rowCandidate2_some hrow).2.2.2.1⟩

def w10Fetch : Fetch := fun _ =>
  .ok ⟨[⟨"1.", ⟨"A", some "u1"⟩, ⟨"A", some "u1"⟩, " sa "⟩], none⟩

theorem claimC10_witness :
    ∃ row : Row, rowCandidate row = some ⟨"A", "u1", some "sa"⟩ ∧
      (some "sa" : Option String) = some (jsTrim row.nextSnippetCell) :=
  claimC10_snippet_always_present.1 w10Fetch "x" 30 2
    ⟨.ok [⟨"A", "u1", some "sa"⟩], [baseParams "x"]⟩
    [⟨"A", "u1", some "sa"⟩] (by decide) rfl
    ⟨"A", "u1", some "sa"⟩ (by decide)

/-- C4 (amended): every result a paginating search (either variant) returns
has a non-empty title and a non-empty url; a marker row whose extracted
title or url is empty yields no candidate at all (never an error), and a
row yielding no candidate leaves the scan state untouched, so scanning
simply continues.  (The simple non-paginating variant has no such guard —
see the counterexample.) -/
theorem claimC4_amended_nonempty :
    (∀ (fetch : Fetch) (q : String) (M fuel : Nat) (lr : LoopResult)
       (rs : List SearchResult),
       searchDuckDuckGoV1 fetch q M fuel = some lr → lr.out = .ok rs →
       ∀ r ∈ rs, r.title ≠ "" ∧ r.url ≠ "") ∧
    (∀ (fetch : Fetch) (q : String) (M fuel : Nat) (lr : LoopResult)
       (rs : List SearchResult),
       searchDuckDuckGoV2 fetch q M fuel = some lr → lr.out = .ok rs →
       ∀ r ∈ rs, r.title ≠ "" ∧ r.url ≠ "") ∧
    (∀ (e : Row → Option SearchResult) (st : List SearchResult × Bool) (row : Row),
       e row = none → processRow e st row = st) ∧
    (∀ row : Row, jsTrim row.link.text = "" ∨ row.link.href.getD "" = "" →
       rowCandidate row = none) ∧
    (∀ row : Row, jsTrim row.lastCellLink.text = "" ∨ row.lastCellLink.href.getD "" = "" →
       rowCandidate2 row = none) := by
  refine ⟨?_, ?_, ?_, ?_, ?_⟩
  · intro fetch q M fuel lr rs h ho r hr
    rcases searchGo_ok_char fetch q M fuel 0 (baseParams q) [] lr rs rfl h ho with
      ⟨n, _, hrs, _, _, _⟩
    rw [hrs] at hr
    have hr2 := List.mem_of_mem_take hr
    rcases mem_foldl_dedupStep _ [] r hr2 with h0 | hmem
    · cases h0
    · rcases List.mem_flatMap.mp hmem with ⟨k, _, hk⟩
      unfold candsOfWith at hk
      cases hfk : fetch k with
      | error e => rw [hfk] at hk; cases hk
      | ok p =>
        rw [hfk] at hk
        rcases List.mem_filterMap.mp hk with ⟨row, _, hrow⟩
        exact ⟨(rowCandidate_some hrow).2.2.2.2.1, (rowCandidate_some hrow).2.2.2.2.2⟩
  · intro fetch q M fuel lr rs h ho r hr
    rcases searchGo2_ok_char fetch q M fuel 0 [] [] lr rs rfl h ho with
      ⟨n, _, hrs, _, _, _⟩
    rw [hrs] at hr
    have hr2 := List.mem_of_mem_take hr
    rcases mem_foldl_dedupStep _ [] r hr2 with h0 | hmem
    · cases h0
    · rcases List.mem_flatMap.mp hmem with ⟨k, _, hk⟩
      unfold candsOfWith at hk
      cases hfk : fetch k with
      | error e => rw [hfk] at hk; cases hk
      | ok p =>
        rw [hfk] at hk
        rcases List.mem_filterMap.mp hk with ⟨row, _, hrow⟩
        exact ⟨(rowCandidate2_some hrow).2.2.2.2.1, (rowCandidate2_some hrow).2.2.2.2.2⟩
  · intro e st row he
    rw [processRow, he]
  · intro row hemp
    rw [rowCandidate]
    by_cases hm : isNumberedMarker (jsTrim row.firstCellText) = true
    · rw [if_pos hm]
      rw [if_neg]
      intro hv
      rcases hemp with he | he
      · exact hv.1 he
      · exact hv.2 he
    · rw [if_neg hm]
  · intro row hemp
    rw [rowCandidate2]
    by_cases hm : isNumberedMarker (jsTrim row.firstCellText) = true
    · rw [if_pos hm]
      rw [if_neg]
      intro hv
      rcases hemp with he | he
      · exact hv.1 he
      · exact hv.2 he
    · rw [if_neg hm]

/-- C4 counterexample: the simple non-paginating variant pushes a result
whenever both an `a.result-link` and a `span.link-text` selection are
non-empty, without checking that the extracted title or url is non-empty —
here a link with empty text produces an output entry whose title is the
empty string, so the claim's "no operation can ever place an empty-title
or empty-url entry in the output" is false for this repository. -/
theorem claimC4_counterexample :
    searchDuckDuckGoSimple [⟨true, "", some "http://x", true⟩] =
      [⟨"", "http://x", none⟩] ∧
    (⟨"", "http://x", none⟩ : SimpleResult).title = "" :=
  ⟨by decide, rfl⟩

def w4Fetch : Fetch := fun _ =>
  .ok ⟨[⟨"1.", ⟨"", some "u1"⟩, ⟨"", some "u1"⟩, "s"⟩,
        ⟨"2.", ⟨"B", some "u2"⟩, ⟨"B", some "u2"⟩, "sb"⟩], none⟩

theorem claimC4_witness :
    ((⟨"B", "u2", some "sb"⟩ : SearchResult).title ≠ "" ∧
     (⟨"B", "u2", some "sb"⟩ : SearchResult).url ≠ "") ∧
    rowCandidate ⟨"1.", ⟨"", some "u1"⟩, ⟨"", some "u1"⟩, "s"⟩ = none :=
  ⟨claimC4_amended_nonempty.1 w4Fetch "x" 30 2
      ⟨.ok [⟨"B", "u2", some "sb"⟩], [baseParams "x"]⟩
      [⟨"B", "u2", some "sb"⟩] (by decide) rfl
      ⟨"B", "u2", some "sb"⟩ (by decide),
   claimC4_amended_nonempty.2.2.2.1 ⟨"1.", ⟨"", some "u1"⟩, ⟨"", some "u1"⟩, "s"⟩
      (Or.inl (by decide))⟩

/-- C5: if the first page's response has no next-page form, both paginating
variants stop after that page as a normal success with the results gathered
so far, issuing exactly one request — whose body is the two base
parameters — regardless of the maximum `M ≥ 1`. -/
theorem claimC5_no_next_form_single_request (fetch : Fetch) (q : String)
    (M fuel : Nat) (p : Page)
    (hf : fetch 0 = .ok p) (hnf : p.nextForm = none)
    (hM : 1 ≤ M) (hfuel : 1 ≤ fuel) :
    (∃ rs, searchDuckDuckGoV1 fetch q M fuel = some ⟨.ok rs, [baseParams q]⟩) ∧
    (∃ rs, searchDuckDuckGoV2 fetch q M fuel = some ⟨.ok rs, [baseParams q]⟩) := by
  cases fuel with
  | zero => omega
  | succ fuel =>
    constructor
    · rw [searchDuckDuckGoV1, searchGo]
      rw [if_pos (by simp only [List.length_nil]; omega)]
      simp only [hf]
      by_cases hbr : (pageInsert rowCandidate p.rows []).2 = false ∨
          M ≤ (pageInsert rowCandidate p.rows []).1.length
      · rw [if_pos hbr]
        exact ⟨_, rfl⟩
      · rw [if_neg hbr]
        simp only [hnf]
        exact ⟨_, rfl⟩
    · rw [searchDuckDuckGoV2, searchGo2]
      rw [if_pos (by simp only [List.length_nil]; omega)]
      have hov : overlayParams (baseParams q) [] = baseParams q := rfl
      simp only [hov, hf]
      by_cases hbr : (pageInsert rowCandidate2 p.rows []).2 = false ∨
          M ≤ (pageInsert rowCandidate2 p.rows []).1.length
      · rw [if_pos hbr]
        exact ⟨_, rfl⟩
      · rw [if_neg hbr]
        simp only [hnf]
        exact ⟨_, rfl⟩

def w5Fetch : Fetch := fun _ =>
  .ok ⟨[⟨"1.", ⟨"A", some "u1"⟩, ⟨"A", some "u1"⟩, "sa"⟩], none⟩

theorem claimC5_witness :
    (∃ rs, searchDuckDuckGoV1 w5Fetch "cats" 30 4 = some ⟨.ok rs, [baseParams "cats"]⟩) ∧
    (∃ rs, searchDuckDuckGoV2 w5Fetch "cats" 30 4 = some ⟨.ok rs, [baseParams "cats"]⟩) :=
  claimC5_no_next_form_single_request w5Fetch "cats" 30 4
    ⟨[⟨"1.", ⟨"A", some "u1"⟩, ⟨"A", some "u1"⟩, "sa"⟩], none⟩
    (by decide) rfl (by omega) (by omega)

/-- If a V1 iteration is entered below the maximum, its parameter set is the
first request it records. -/
theorem searchGo_requests_head (fetch : Fetch) (q : String) (M fuel k : Nat)
    (ps : Params) (acc : List SearchResult) (lr : LoopResult)
    (h : searchGo fetch q M (fuel + 1) k ps acc = some lr)
    (hlt : acc.length < M) :
    ∃ rest, lr.requests = ps :: rest := by
  rw [searchGo] at h
  rw [if_pos hlt] at h
  cases hfk : fetch k with
  | error e =>
    simp only [hfk] at h
    injection h with h
    subst h
    exact ⟨[], rfl⟩
  | ok page =>
    simp only [hfk] at h
    by_cases hbr : (pageInsert rowCandidate page.rows acc).2 = false ∨
        M ≤ (pageInsert rowCandidate page.rows acc).1.length
    · rw [if_pos hbr] at h
      injection h with h
      subst h
      exact ⟨[], rfl⟩
    · rw [if_neg hbr] at h
      cases hnf : page.nextForm with
      | none =>
        simp only [hnf] at h
        injection h with h
        subst h
        exact ⟨[], rfl⟩
      | some inputs =>
        simp only [hnf] at h
        cases hrec : searchGo fetch q M fuel (k + 1) (rebuildParams q inputs)
            (pageInsert rowCandidate page.rows acc).1 with
        | none => rw [hrec] at h; cases h
        | some lr' =>
          rw [hrec] at h
          injection h with h
          subst h
          exact ⟨lr'.requests, rfl⟩

/-- If a V2 iteration is entered below the maximum, the overlay of its
continuation parameters on the base parameters is the first request it
records. -/
theorem searchGo2_requests_head (fetch : Fetch) (q : String) (M fuel k : Nat)
    (nps : Params) (acc : List SearchResult) (lr : LoopResult)
    (h : searchGo2 fetch q M (fuel + 1) k nps acc = some lr)
    (hlt : acc.length < M) :
    ∃ rest, lr.requests = overlayParams (baseParams q) nps :: rest := by
  rw [searchGo2] at h
  rw [if_pos hlt] at h
  cases hfk : fetch k with
  | error e =>
    simp only [hfk] at h
    injection h with h
    subst h
    exact ⟨[], rfl⟩
  | ok page =>
    simp only [hfk] at h
    by_cases hbr : (pageInsert rowCandidate2 page.rows acc).2 = false ∨
        M ≤ (pageInsert rowCandidate2 page.rows acc).1.length
    · rw [if_pos hbr] at h
      injection h with h
      subst h
      exact ⟨[], rfl⟩
    · rw [if_neg hbr] at h
      cases hnf : page.nextForm with
      | none =>
        simp only [hnf] at h
        injection h with h
        subst h
        exact ⟨[], rfl⟩
      | some inputs =>
        simp only [hnf] at h
        by_cases hnp : extractHidden inputs = []
        · rw [if_pos hnp] at h
          injection h with h
          subst h
          exact ⟨[], rfl⟩
        · rw [if_neg hnp] at h
          cases hrec : searchGo2 fetch q M fuel (k + 1) (extractHidden inputs)
              (pageInsert rowCandidate2 page.rows acc).1 with
          | none => rw [hrec] at h; cases h
          | some lr' =>
            rw [hrec] at h
            injection h with h
            subst h
            exact ⟨lr'.requests, rfl⟩

def c6Fetch : Fetch := fun k =>
  if k = 0 then
    .ok ⟨[⟨"1.", ⟨"T", some "u"⟩, ⟨"T", some "u"⟩, "s"⟩], some []⟩
  else .ok ⟨[], none⟩

/-- C6 counterexample: in the V1 loop, page 1 has a next-page form with no
hidden inputs, so the rebuilt continuation-parameter set is exactly the two
base parameters — yet the loop does not stop: it issues a second request
(carrying only the base parameters), as the recorded request list of length
two shows.  The claimed "stops instead of issuing another request" fails
for this variant. -/
theorem claimC6_counterexample :
    searchDuckDuckGoV1 c6Fetch "cats" 30 3 =
      some ⟨.ok [⟨"T", "u", some "s"⟩], [baseParams "cats", baseParams "cats"]⟩ := by
  decide

/-- C6 (amended): after locating the next-page form, the continuation
parameters are rebuilt from scratch as the two base parameters plus every
hidden input of that form (assignments in document order, a later duplicate
name overwriting an earlier one): the V1 loop's next request carries
`rebuildParams` (base, then hidden assignments) and the V2 loop's next
request carries the same overlay built at send time.  Only the V2 loop
stops when the rebuild yields no parameter beyond the base two; the V1 loop
has no such check and issues the next request anyway (see the
counterexample). -/
theorem claimC6_amended_param_rebuild :
    (∀ (fetch : Fetch) (q : String) (M fuel : Nat) (p : Page)
       (inputs : List HiddenInput),
       fetch 0 = .ok p → p.nextForm = some inputs → extractHidden inputs = [] →
       (pageInsert rowCandidate2 p.rows []).2 = true →
       (pageInsert rowCandidate2 p.rows []).1.length < M → 1 ≤ fuel →
       searchDuckDuckGoV2 fetch q M fuel =
         some ⟨.ok ((pageInsert rowCandidate2 p.rows []).1.take M), [baseParams q]⟩) ∧
    (∀ (fetch : Fetch) (q : String) (M fuel : Nat) (p : Page)
       (inputs : List HiddenInput) (lr : LoopResult),
       fetch 0 = .ok p → p.nextForm = some inputs → extractHidden inputs ≠ [] →
       (pageInsert rowCandidate2 p.rows []).2 = true →
       (pageInsert rowCandidate2 p.rows []).1.length < M →
       searchDuckDuckGoV2 fetch q M fuel = some lr →
       ∃ rest, lr.requests =
         baseParams q :: overlayParams (baseParams q) (extractHidden inputs) :: rest) ∧
    (∀ (fetch : Fetch) (q : String) (M fuel : Nat) (p : Page)
       (inputs : List HiddenInput) (lr : LoopResult),
       fetch 0 = .ok p → p.nextForm = some inputs →
       (pageInsert rowCandidate p.rows []).2 = true →
       (pageInsert rowCandidate p.rows []).1.length < M →
       searchDuckDuckGoV1 fetch q M fuel = some lr →
       ∃ rest, lr.requests = baseParams q :: rebuildParams q inputs :: rest) := by
  refine ⟨?_, ?_, ?_⟩
  · intro fetch q M fuel p inputs hf hnf hnp hfound hlen hfuel
    cases fuel with
    | zero => omega
    | succ fuel =>
      rw [searchDuckDuckGoV2, searchGo2]
      rw [if_pos (by simp only [List.length_nil]; omega)]
      simp only [hf]
      rw [if_neg (by rw [hfound]; push_neg; exact ⟨by simp, by omega⟩)]
      simp only [hnf]
      rw [if_pos hnp]
      rfl
  · intro fetch q M fuel p inputs lr hf hnf hnp hfound hlen h
    cases fuel with
    | zero => exact absurd h (by simp [searchDuckDuckGoV2, searchGo2])
    | succ fuel =>
      rw [searchDuckDuckGoV2, searchGo2] at h
      rw [if_pos (by simp only [List.length_nil]; omega)] at h
      simp only [hf] at h
      rw [if_neg (by rw [hfound]; push_neg; exact ⟨by simp, by omega⟩)] at h
      simp only [hnf] at h
      rw [if_neg hnp] at h
      cases fuel with
      | zero =>
        rw [show (searchGo2 fetch q M 0 1 (extractHidden inputs)
            (pageInsert rowCandidate2 p.rows []).1) = none from rfl] at h
        cases h
      | succ fuel =>
        cases hrec : searchGo2 fetch q M (fuel + 1) 1 (extractHidden inputs)
            (pageInsert rowCandidate2 p.rows []).1 with
        | none => rw [hrec] at h; cases h
        | some lr' =>
          rw [hrec] at h
          injection h with h
          subst h
          rcases searchGo2_requests_head fetch q M fuel 1 (extractHidden inputs)
              (pageInsert rowCandidate2 p.rows []).1 lr' hrec hlen with ⟨rest, hreq⟩
          refine ⟨rest, ?_⟩
          simp only [hreq]
          rfl
  · intro fetch q M fuel p inputs lr hf hnf hfound hlen h
    cases fuel with
    | zero => exact absurd h (by simp [searchDuckDuckGoV1, searchGo])
    | succ fuel =>
      rw [searchDuckDuckGoV1, searchGo] at h
      rw [if_pos (by simp only [List.length_nil]; omega)] at h
      simp only [hf] at h
      rw [if_neg (by rw [hfound]; push_neg; exact ⟨by simp, by omega⟩)] at h
      simp only [hnf] at h
      cases fuel with
      | zero =>
        rw [show (searchGo fetch q M 0 1 (rebuildParams q inputs)
            (pageInsert rowCandidate p.rows []).1) = none from rfl] at h
        cases h
      | succ fuel =>
        cases hrec : searchGo fetch q M (fuel + 1) 1 (rebuildParams q inputs)
            (pageInsert rowCandidate p.rows []).1 with
        | none => rw [hrec] at h; cases h
        | some lr' =>
          rw [hrec] at h
          injection h with h
          subst h
          rcases searchGo_requests_head fetch q M fuel 1 (rebuildParams q inputs)
              (pageInsert rowCandidate p.rows []).1 lr' hrec hlen with ⟨rest, hreq⟩
          exact ⟨rest, by simp only [hreq]⟩

def w6Fetch : Fetch := fun k =>
  if k = 0 then
    .ok ⟨[⟨"1.", ⟨"T", some "u"⟩, ⟨"T", some "u"⟩, "s"⟩], some [⟨some "x", none⟩]⟩
  else .ok ⟨[], none⟩

theorem claimC6_witness :
    searchDuckDuckGoV2 w6Fetch "q" 30 2 =
      some ⟨.ok [⟨"T", "u", some "s"⟩], [baseParams "q"]⟩ ∧
    ∃ rest, ([baseParams "q", baseParams "q"] : List Params) =
      baseParams "q" :: rebuildParams "q" [⟨some "x", none⟩] :: rest :=
  ⟨claimC6_amended_param_rebuild.1 w6Fetch "q" 30 2
      ⟨[⟨"1.", ⟨"T", some "u"⟩, ⟨"T", some "u"⟩, "s"⟩], some [⟨some "x", none⟩]⟩
      [⟨some "x", none⟩] (by decide) rfl rfl (by decide) (by decide) (by omega),
   claimC6_amended_param_rebuild.2.2 w6Fetch "q" 30 3
      ⟨[⟨"1.", ⟨"T", some "u"⟩, ⟨"T", some "u"⟩, "s"⟩], some [⟨some "x", none⟩]⟩
      [⟨some "x", none⟩]
      ⟨.ok [⟨"T", "u", some "s"⟩], [baseParams "q", baseParams "q"]⟩
      (by decide) rfl (by decide) (by decide) (by decide)⟩

/-- C3 counterexample: the handler checks only
`typeof maxResults === "number" && 1 <= maxResults <= 100` — integrality is
not checked, so the non-integer number `5/2` within range is accepted and
passed through to the search, not rejected, refuting "not an integer number
in the inclusive range [1,100] … is rejected". -/
theorem claimC3_counterexample :
    validateCall "search" true ⟨.jsStr "cats", .jsNum (5 / 2)⟩ =
      .search "cats" (5 / 2) ∧ ((5 : ℚ) / 2).den ≠ 1 := by
  constructor
  · simp only [validateCall]
    norm_num
  · norm_num

/-- C3 (amended): a non-string query is always rejected; a supplied
maxResults that is a number outside [1,100] is always rejected; a validated
call carries the query string and the supplied maxResults value verbatim
(default 30 when absent), within [1,100] but with integrality unchecked —
never clamped; and a rejection happens with no request issued, since the
handler throws before `searchDuckDuckGo` runs. -/
theorem claimC3_amended_validation :
    (∀ (name : String) (hasArgs : Bool) (args : CallArgs),
       (∀ s, args.query ≠ .jsStr s) →
       ∃ msg, validateCall name hasArgs args = .rejected msg) ∧
    (∀ (name : String) (hasArgs : Bool) (args : CallArgs) (x : ℚ),
       args.maxResults = .jsNum x → (x < 1 ∨ 100 < x) →
       ∃ msg, validateCall name hasArgs args = .rejected msg) ∧
    (∀ (name : String) (hasArgs : Bool) (args : CallArgs) (q : String) (x : ℚ),
       validateCall name hasArgs args = .search q x →
       args.query = .jsStr q ∧ 1 ≤ x ∧ x ≤ 100 ∧
       (args.maxResults = .jsNum x ∨ (args.maxResults = .jsUndefined ∧ x = 30))) ∧
    (∀ (fetch : Fetch) (fuel : Nat) (name : String) (hasArgs : Bool)
       (args : CallArgs) (msg : String),
       validateCall name hasArgs args = .rejected msg →
       callRequestCountV1 fetch fuel name hasArgs args = some 0) := by
  refine ⟨?_, ?_, ?_, ?_⟩
  · intro name hasArgs args hno
    obtain ⟨qv, mv⟩ := args
    by_cases hn : name ≠ "search"
    · rw [validateCall, if_pos hn]; exact ⟨_, rfl⟩
    · cases hasArgs with
      | false => rw [validateCall, if_neg hn, if_pos rfl]; exact ⟨_, rfl⟩
      | true =>
        cases qv with
        | jsStr s => exact absurd rfl (hno s)
        | jsNum x =>
          simp only [validateCall]
          rw [if_neg hn, if_neg (by simp)]
          exact ⟨_, rfl⟩
        | jsBool b =>
          simp only [validateCall]
          rw [if_neg hn, if_neg (by simp)]
          exact ⟨_, rfl⟩
        | jsNull =>
          simp only [validateCall]
          rw [if_neg hn, if_neg (by simp)]
          exact ⟨_, rfl⟩
        | jsUndefined =>
          simp only [validateCall]
          rw [if_neg hn, if_neg (by simp)]
          exact ⟨_, rfl⟩
        | jsObject =>
          simp only [validateCall]
          rw [if_neg hn, if_neg (by simp)]
          exact ⟨_, rfl⟩
  · intro name hasArgs args x hmr hrange
    obtain ⟨qv, mv⟩ := args
    have hmv : mv = .jsNum x := hmr
    subst hmv
    by_cases hn : name ≠ "search"
    · rw [validateCall, if_pos hn]; exact ⟨_, rfl⟩
    · cases hasArgs with
      | false => rw [validateCall, if_neg hn, if_pos rfl]; exact ⟨_, rfl⟩
      | true =>
        cases qv with
        | jsStr s =>
          simp only [validateCall]
          rw [if_neg hn, if_neg (by simp), if_pos hrange]
          exact ⟨_, rfl⟩
        | jsNum y =>
          simp only [validateCall]
          rw [if_neg hn, if_neg (by simp)]
          exact ⟨_, rfl⟩
        | jsBool b =>
          simp only [validateCall]
          rw [if_neg hn, if_neg (by simp)]
          exact ⟨_, rfl⟩
        | jsNull =>
          simp only [validateCall]
          rw [if_neg hn, if_neg (by simp)]
          exact ⟨_, rfl⟩
        | jsUndefined =>
          simp only [validateCall]
          rw [if_neg hn, if_neg (by simp)]
          exact ⟨_, rfl⟩
        | jsObject =>
          simp only [validateCall]
          rw [if_neg hn, if_neg (by simp)]
          exact ⟨_, rfl⟩
  · intro name hasArgs args q x h
    obtain ⟨qv, mv⟩ := args
    by_cases hn : name ≠ "search"
    · rw [validateCall, if_pos hn] at h; cases h
    · cases hasArgs with
      | false => rw [validateCall, if_neg hn, if_pos rfl] at h; cases h
      | true =>
        cases qv with
        | jsStr s =>
          cases mv with
          | jsUndefined =>
            simp only [validateCall] at h
            rw [if_neg hn, if_neg (by simp)] at h
            rw [if_neg (by norm_num : ¬((30 : ℚ) < 1 ∨ 100 < (30 : ℚ)))] at h
            injection h with h1 h2
            subst h1
            subst h2
            exact ⟨rfl, by norm_num, by norm_num, Or.inr ⟨rfl, rfl⟩⟩
          | jsNum y =>
            simp only [validateCall] at h
            rw [if_neg hn, if_neg (by simp)] at h
            by_cases hr : y < 1 ∨ 100 < y
            · rw [if_pos hr] at h; cases h
            · rw [if_neg hr] at h
              push_neg at hr
              injection h with h1 h2
              subst h1
              subst h2
              exact ⟨rfl, hr.1, hr.2, Or.inl rfl⟩
          | jsBool b =>
            simp only [validateCall] at h
            rw [if_neg hn, if_neg (by simp)] at h
            cases h
          | jsNull =>
            simp only [validateCall] at h
            rw [if_neg hn, if_neg (by simp)] at h
            cases h
          | jsStr s2 =>
            simp only [validateCall] at h
            rw [if_neg hn, if_neg (by simp)] at h
            cases h
          | jsObject =>
            simp only [validateCall] at h
            rw [if_neg hn, if_neg (by simp)] at h
            cases h
        | jsNum y =>
          simp only [validateCall] at h
          rw [if_neg hn, if_neg (by simp)] at h
          cases h
        | jsBool b =>
          simp only [validateCall] at h
          rw [if_neg hn, if_neg (by simp)] at h
          cases h
        | jsNull =>
          simp only [validateCall] at h
          rw [if_neg hn, if_neg (by simp)] at h
          cases h
        | jsUndefined =>
          simp only [validateCall] at h
          rw [if_neg hn, if_neg (by simp)] at h
          cases h
        | jsObject =>
          simp only [validateCall] at h
          rw [if_neg hn, if_neg (by simp)] at h
          cases h
  · intro fetch fuel name hasArgs args msg h
    rw [callRequestCountV1, h]

theorem claimC3_witness :
    (∃ msg, validateCall "search" true ⟨.jsNum 3, .jsUndefined⟩ = .rejected msg) ∧
    (∃ msg, validateCall "search" true ⟨.jsStr "cats", .jsNum 101⟩ = .rejected msg) ∧
    callRequestCountV1 (fun _ => .ok ⟨[], none⟩) 5 "search" true
      ⟨.jsStr "cats", .jsNum 0⟩ = some 0 :=
  ⟨claimC3_amended_validation.1 "search" true ⟨.jsNum 3, .jsUndefined⟩
      (fun s h => by cases h),
   claimC3_amended_validation.2.1 "search" true ⟨.jsStr "cats", .jsNum 101⟩ 101 rfl
      (Or.inr (by norm_num)),
   claimC3_amended_validation.2.2.2 (fun _ => .ok ⟨[], none⟩) 5 "search" true
      ⟨.jsStr "cats", .jsNum 0⟩ "Invalid maxResults parameter (must be between 1 and 100)"
      (by simp only [validateCall]; norm_num)⟩

/-- C8: a table row is considered exactly when its first cell's trimmed
text is one or more digits followed by a period (the hand-rolled test is
proved equivalent to that language); a non-marker row yields nothing in
either variant; any candidate produced has its title and url taken from the
row's result-link (V1) or the last cell's link (V2) and its snippet from
the following sibling row's snippet cell; and a marker row with non-empty
extracted title and url produces exactly that candidate.  (Marker rows
whose extracted title or url is empty produce no candidate — the validity
filter treated by C4.) -/
theorem claimC8_marker_row_extraction :
    (∀ s : String, isNumberedMarker s = true ↔
      ∃ ds : List Char, ds ≠ [] ∧ (∀ c ∈ ds, c.isDigit) ∧ s.data = ds ++ ['.']) ∧
    (∀ r : Row, isNumberedMarker (jsTrim r.firstCellText) = false →
      rowCandidate r = none ∧ rowCandidate2 r = none) ∧
    (∀ (r : Row) (c : SearchResult), rowCandidate r = some c →
      isNumberedMarker (jsTrim r.firstCellText) = true ∧
      c.title = jsTrim r.link.text ∧ c.url = r.link.href.getD "" ∧
      c.snippet = some (jsTrim r.nextSnippetCell)) ∧
    (∀ (r : Row) (c : SearchResult), rowCandidate2 r = some c →
      isNumberedMarker (jsTrim r.firstCellText) = true ∧
      c.title = jsTrim r.lastCellLink.text ∧ c.url = r.lastCellLink.href.getD "" ∧
      c.snippet = some (jsTrim r.nextSnippetCell)) ∧
    (∀ r : Row, isNumberedMarker (jsTrim r.firstCellText) = true →
      jsTrim r.link.text ≠ "" → r.link.href.getD "" ≠ "" →
      rowCandidate r = some ⟨jsTrim r.link.text, r.link.href.getD "",
        some (jsTrim r.nextSnippetCell)⟩) ∧
    (∀ r : Row, isNumberedMarker (jsTrim r.firstCellText) = true →
      jsTrim r.lastCellLink.text ≠ "" → r.lastCellLink.href.getD "" ≠ "" →
      rowCandidate2 r = some ⟨jsTrim r.lastCellLink.text, r.lastCellLink.href.getD "",
        some (jsTrim r.nextSnippetCell)⟩) := by
  refine ⟨isNumberedMarker_iff, ?_, ?_, ?_, ?_, ?_⟩
  · intro r hm
    constructor
    · rw [rowCandidate, if_neg (by rw [hm]; exact Bool.false_ne_true)]
    · rw [rowCandidate2, if_neg (by rw [hm]; exact Bool.false_ne_true)]
  · intro r c h
    rcases rowCandidate_some h with ⟨h1, h2, h3, h4, _⟩
    exact ⟨h1, h2, h3, h4⟩
  · intro r c h
    rcases rowCandidate2_some h with ⟨h1, h2, h3, h4, _⟩
    exact ⟨h1, h2, h3, h4⟩
  · intro r hm ht hu
    simp only [rowCandidate]
    rw [if_pos hm]
    rw [if_pos ⟨ht, hu⟩]
  · intro r hm ht hu
    simp only [rowCandidate2]
    rw [if_pos hm]
    rw [if_pos ⟨ht, hu⟩]

theorem claimC8_witness :
    (∃ ds : List Char, ds ≠ [] ∧ (∀ c ∈ ds, c.isDigit) ∧
      ("12." : String).data = ds ++ ['.']) ∧
    rowCandidate ⟨"abc", ⟨"T", some "u"⟩, ⟨"T", some "u"⟩, "s"⟩ = none ∧
    rowCandidate ⟨" 3. ", ⟨" T ", some "u"⟩, ⟨" T ", some "u"⟩, " s "⟩ =
      some ⟨"T", "u", some "s"⟩ :=
  ⟨(claimC8_marker_row_extraction.1 "12.").mp (by decide),
   (claimC8_marker_row_extraction.2.1 ⟨"abc", ⟨"T", some "u"⟩, ⟨"T", some "u"⟩, "s"⟩
      (by decide)).1,
   claimC8_marker_row_extraction.2.2.2.2.1
      ⟨" 3. ", ⟨" T ", some "u"⟩, ⟨" T ", some "u"⟩, " s "⟩
      (by decide) (by decide) (by decide)⟩
